import Mathlib

/-!
Verification of the lex-js `Tokenizer` engine (`src/Tokenizer.js`).

Modelling conventions:

* JS strings are modelled as `List Char` (the code only uses positional
  operations: `slice`, `length`, indexing, `split('\n')`, concatenation).
* Host regular-expression objects are opaque to the scanning loop: the only
  thing `_match` does with a regexp is `string.match(regexp)` and then use
  `matched[0]`.  A processed (anchored) rule pattern is therefore modelled
  as a matcher function `List Char → Option (List Char)` returning the
  matched text, and properties that depend on anchoredness carry an
  explicit hypothesis that a returned match is a prefix of (or no longer
  than) the searched string, which is what an anchored JS regexp guarantees.
* `_processSpec`, by contrast, inspects the regexp object structurally
  (`entry[0].source[0]`, `new RegExp('^' + source)`), so for it a regexp is
  modelled as a `source`/`flags` record (`new RegExp(s)` has empty flags).
* The lazy generator `_genTokens` is modelled as a step function on the
  scan state plus an explicit generator-completion flag: a JS generator
  whose body returns or throws is completed, and every later `next()`
  yields `{done: true, value: undefined}`.
-/

/-- Token object as produced by `_toToken` (Tokenizer.js lines 248–262).
In this version of the code the six location fields are always attached. -/
structure Token where
  type : String
  value : List Char
  startOffset : Nat
  endOffset : Nat
  startLine : Nat
  endLine : Nat
  startColumn : Nat
  endColumn : Nat
deriving DecidableEq, Repr

/-- Result of a rule handler call `handle(tokenValue)` in `_genTokens`:
the JS value may be `null`/`undefined`, a token-type label, or an array
`[newValue, newType]` whose second slot may itself be null. -/
inductive HandlerResult where
  | nul : HandlerResult
  | label : String → HandlerResult
  | arr : List Char → Option String → HandlerResult

/-- A processed spec rule `[regexp, handle]`.  The anchored regexp is
modelled by its matching behaviour on the remaining input. -/
structure Rule where
  matcher : List Char → Option (List Char)
  handler : List Char → HandlerResult

/-- Mutable scan state of the `Tokenizer` instance, as set up by `init`
(Tokenizer.js lines 45–66): input string, cursor, current line/column
bookkeeping, and the per-token location fields written by
`_captureLocation`. -/
structure LexState where
  input : List Char
  cursor : Nat
  currentLine : Nat
  currentColumn : Nat
  currentLineBeginOffset : Nat
  tokenStartOffset : Nat
  tokenEndOffset : Nat
  tokenStartLine : Nat
  tokenEndLine : Nat
  tokenStartColumn : Nat
  tokenEndColumn : Nat
deriving DecidableEq, Repr

/-- `init(string)`: cursor 0, line 1, column 0, line-begin offset 0, all
token location fields zeroed/respectively 1 (Tokenizer.js lines 45–66). -/
def initState (input : List Char) : LexState :=
  { input := input
    cursor := 0
    currentLine := 1
    currentColumn := 0
    currentLineBeginOffset := 0
    tokenStartOffset := 0
    tokenEndOffset := 0
    tokenStartLine := 1
    tokenEndLine := 1
    tokenStartColumn := 0
    tokenEndColumn := 0 }

/-- The newline loop of `_captureLocation`: for every `'\n'` found in the
matched text (scanned left to right, `i` is the index within the match),
increment the line counter and move the line-begin offset to just past the
newline (`base + i + 1`, where `base` is the token's start offset). -/
def nlScan (base : Nat) : List Char → Nat → Nat → Nat → Nat × Nat
  | [], _, line, lbo => (line, lbo)
  | c :: rest, i, line, lbo =>
      nlScan base rest (i + 1)
        (if c = '\n' then line + 1 else line)
        (if c = '\n' then base + i + 1 else lbo)

/-- `_captureLocation(matched)` (Tokenizer.js lines 219–243): records the
token start from the pre-advance cursor, scans the matched text for
newlines, then records end offset/line/column; the end column also becomes
the new current column. -/
def _captureLocation (st : LexState) (matched : List Char) : LexState :=
  let tso := st.cursor
  let scanned := nlScan tso matched 0 st.currentLine st.currentLineBeginOffset
  let teo := st.cursor + matched.length
  { st with
      tokenStartOffset := tso
      tokenStartLine := st.currentLine
      tokenStartColumn := tso - st.currentLineBeginOffset
      currentLine := scanned.1
      currentLineBeginOffset := scanned.2
      tokenEndOffset := teo
      tokenEndLine := scanned.1
      tokenEndColumn := teo - scanned.2
      currentColumn := teo - scanned.2 }

/-- Success path of `_match` (Tokenizer.js lines 267–276): capture the
location from the matched text, then advance the cursor by its length. -/
def matchApply (st : LexState) (matched : List Char) : LexState :=
  { _captureLocation st matched with cursor := st.cursor + matched.length }

/-- The rule loop of `_genTokens` (Tokenizer.js lines 149–160): try each
rule in spec order against the remaining input; the first rule whose
pattern matches wins and the loop breaks.  Returns the winning rule's
index, the rule, and the matched text.  A failing `_match` performs no
state change, so only the winner's side effects happen. -/
def findRule : List Rule → List Char → Option (Nat × Rule × List Char)
  | [], _ => none
  | r :: rs, rem =>
      match r.matcher rem with
      | some m => some (0, r, m)
      | none => (findRule rs rem).map fun p => (p.1 + 1, p.2)

/-- Combination of the handler call, the array destructuring
(`tokenValue = tokenType[0]; tokenType = tokenType[1]`) and the
`tokenType == null` check of `_genTokens`: yields the resolved
`(tokenType, tokenValue)`, or `none` when the token type is unresolved. -/
def resolveHandler : HandlerResult → List Char → Option (String × List Char)
  | .nul, _ => none
  | .label t, v => some (t, v)
  | .arr v t, _ => t.map fun ty => (ty, v)

/-- `_toToken(tokenType, tokenValue)` (Tokenizer.js lines 248–262): builds
the token record, unconditionally attaching the six location fields from
the scan state. -/
def _toToken (st : LexState) (ty : String) (v : List Char) : Token :=
  { type := ty
    value := v
    startOffset := st.tokenStartOffset
    endOffset := st.tokenEndOffset
    startLine := st.tokenStartLine
    endLine := st.tokenEndLine
    startColumn := st.tokenStartColumn
    endColumn := st.tokenEndColumn }

/-- Outcome of one iteration of the `_genTokens` loop. -/
inductive StepResult where
  | eof : StepResult
  | tok : Token → LexState → StepResult
  | err : Option Char → Nat → Nat → LexState → StepResult
deriving DecidableEq, Repr

/-- One iteration of `_genTokens` (Tokenizer.js lines 142–171): if the
cursor is before end of input, slice the remaining input, run the rule
loop, and either throw `UnexpectedToken` (carrying `string[0]` and the
current line/column at throw time, plus the scan state as left behind) or
yield the token built from the winning rule's resolved handler result.
Note that on a successful match the state advance (`_match`) happens
before the handler result is inspected, so a null handler result throws
from the already-advanced state. -/
def _genStep (rules : List Rule) (st : LexState) : StepResult :=
  if st.cursor < st.input.length then
    match findRule rules (st.input.drop st.cursor) with
    | none =>
        .err (st.input.drop st.cursor).head? st.currentLine st.currentColumn st
    | some (_, r, m) =>
        match resolveHandler (r.handler m) m with
        | none =>
            .err (st.input.drop st.cursor).head? (matchApply st m).currentLine
              (matchApply st m).currentColumn (matchApply st m)
        | some (ty, v) => .tok (_toToken (matchApply st m) ty v) (matchApply st m)
  else .eof

/-- Outcome of driving `_genTokens` to the end: normal completion with the
emitted tokens, an `UnexpectedToken` throw (with the tokens emitted before
it), or fuel exhaustion (the JS loop has no fuel; fuel only makes the
model total, and a spec whose rules always consume input never runs out
given enough fuel). -/
inductive RunResult where
  | ok : List Token → LexState → RunResult
  | err : Option Char → Nat → Nat → List Token → LexState → RunResult
  | fuelOut : RunResult
deriving DecidableEq, Repr

/-- Drive `_genTokens` until end of input, an error, or fuel exhaustion. -/
def runAux (rules : List Rule) : Nat → LexState → RunResult
  | 0, _ => .fuelOut
  | fuel + 1, st =>
      match _genStep rules st with
      | .eof => .ok [] st
      | .err s l c st' => .err s l c [] st'
      | .tok t st' =>
          match runAux rules fuel st' with
          | .ok toks stF => .ok (t :: toks) stF
          | .err s l c toks stF => .err s l c (t :: toks) stF
          | .fuelOut => .fuelOut

/-- Tokenize an input from scratch: `init` then drain `_genTokens`. -/
def runTokenizer (rules : List Rule) (fuel : Nat) (input : List Char) : RunResult :=
  runAux rules fuel (initState input)

/-- The `Tokenizer` object state beyond the scan state: the `_tokens`
array (a JS value that is an array or null — the constructor sets it to
`[]` and `init` only clears it in place, so it is never null) and the
completion status of the `_gen` generator. -/
structure TokenizerObj where
  st : LexState
  tokens : Option (List Token)
  genDone : Bool
deriving DecidableEq, Repr

/-- Constructor (Tokenizer.js lines 36–40): `_tokens = []`, then `init`. -/
def mkTokenizer (input : List Char) : TokenizerObj :=
  { st := initState input, tokens := some [], genDone := false }

/-- `init(string)` on an existing object: fresh scan state,
`_tokens.length = 0` (clears the array in place, keeping it non-null),
and a fresh generator. -/
def tokInit (input : List Char) (g : TokenizerObj) : TokenizerObj :=
  { st := initState input
    tokens := g.tokens.map fun _ => []
    genDone := false }

/-- `reset()` re-runs `init` with the currently bound string. -/
def tokReset (g : TokenizerObj) : TokenizerObj :=
  tokInit g.st.input g

/-- `hasMoreTokens()` (Tokenizer.js lines 100–102). -/
def hasMoreTokensT (g : TokenizerObj) : Bool :=
  g.st.cursor < g.st.input.length

/-- What one `this._gen.next()` call can produce, as observed through
`getNextToken` (Tokenizer.js lines 93–95): a token, the `undefined` end
marker of a completed generator, or a propagated `UnexpectedToken`
throw. -/
inductive GenOut where
  | tok : Token → GenOut
  | eof : GenOut
  | thrown : Option Char → Nat → Nat → GenOut
deriving DecidableEq, Repr

/-- One `next()` call on the `_genTokens` generator.  A completed
generator (body returned at end of input, or threw) answers
`{done: true, value: undefined}` without running any code; otherwise the
body resumes, re-checks `hasMoreTokens`, and runs one loop iteration.
Both a normal return and a throw complete the generator. -/
def genNext (rules : List Rule) (g : TokenizerObj) : GenOut × TokenizerObj :=
  if g.genDone then (.eof, g)
  else
    match _genStep rules g.st with
    | .eof => (.eof, { g with genDone := true })
    | .err s l c st' => (.thrown s l c, { g with st := st', genDone := true })
    | .tok t st' => (.tok t, { g with st := st' })

/-- Spreading the generator (`[...this]`), as used by the (dead) drain
branch of `getAllTokens`: pull tokens until the generator completes. -/
def drainGen (rules : List Rule) : Nat → TokenizerObj → List Token × TokenizerObj
  | 0, g => ([], g)
  | fuel + 1, g =>
      match genNext rules g with
      | (.tok t, g') =>
          let rest := drainGen rules fuel g'
          (t :: rest.1, rest.2)
      | (_, g') => ([], g')

/-- `getAllTokens()` (Tokenizer.js lines 190–195): drain into `_tokens`
only if `_tokens == null`, otherwise return the stored array as is. -/
def getAllTokensT (rules : List Rule) (fuel : Nat) (g : TokenizerObj) :
    List Token × TokenizerObj :=
  match g.tokens with
  | some l => (l, g)
  | none =>
      let d := drainGen rules fuel g
      (d.1, { d.2 with tokens := some d.1 })

/-- JS `string.split('\n')`: the empty string splits to `[""]`, and each
`'\n'` separates (possibly empty) fragments. -/
def splitNl : List Char → List (List Char)
  | [] => [[]]
  | c :: rest =>
      match splitNl rest with
      | [] => [[c]]
      | h :: t => if c = '\n' then [] :: h :: t else (c :: h) :: t

/-- Decimal rendering of a number, as JS template interpolation does. -/
def natToStr (n : Nat) : List Char := (toString n).data

/-- JS template interpolation of the offending symbol: a one-character
string, or the text `undefined` when `string[0]` was out of range. -/
def symRepr : Option Char → List Char
  | some c => [c]
  | none => "undefined".data

/-- The trailing message line
`Unexpected token: "<char>" at <line>:<column>\n` of
`throwUnexpectedToken` (Tokenizer.js lines 211–213). -/
def unexpectedCore (symbol : Option Char) (line column : Nat) : List Char :=
  "Unexpected token: \"".data ++ symRepr symbol ++ "\" at ".data ++
    natToStr line ++ ':' :: natToStr column ++ ['\n']

/-- `throwUnexpectedToken(symbol, line, column)` (Tokenizer.js lines
202–214): look the source line up by splitting the whole input on
newlines; if that line is truthy (present and non-empty) prepend it with
a caret marker padded by `column` spaces; always end with the
`Unexpected token` message line. -/
def unexpectedTokenMessage (input : List Char) (symbol : Option Char)
    (line column : Nat) : List Char :=
  let lineSource := (splitNl input).get? (line - 1)
  let lineData : List Char :=
    match lineSource with
    | some ls =>
        if ls.isEmpty then []
        else '\n' :: '\n' :: (ls ++ '\n' :: (List.replicate column ' ' ++ ['^', '\n']))
    | none => []
  lineData ++ unexpectedCore symbol line column

/-- A JS regexp object as `_processSpec` observes it: its `source` text
and its `flags`.  `new RegExp(s)` (one argument) has empty flags. -/
structure JSRegExp where
  source : List Char
  flags : List Char
deriving DecidableEq, Repr

/-- Per-pattern step of `_processSpec` (Tokenizer.js lines 281–293): if
`entry[0].source[0] !== '^'`, replace the pattern by
`new RegExp('^' + source)`; otherwise leave the entry unchanged. -/
def processPattern (r : JSRegExp) : JSRegExp :=
  if r.source.head? = some '^' then r
  else { source := '^' :: r.source, flags := [] }

/-- `_processSpec` over the rule list (after the `spec.rules` unwrapping):
rewrites each entry's pattern in place and returns the list. -/
def _processSpec {α : Type} (spec : List (JSRegExp × α)) : List (JSRegExp × α) :=
  spec.map fun e => (processPattern e.1, e.2)

/-! Concrete rules used by the repository's own tests and the spec's
examples.  `takeWhile1 p` models an anchored greedy `/^p+/` character-class
regexp: the longest non-empty prefix of `p`-characters, failure on the
empty prefix. -/

/-- Anchored greedy one-or-more character-class matcher. -/
def takeWhile1 (p : Char → Bool) (s : List Char) : Option (List Char) :=
  let m := s.takeWhile p
  if m.isEmpty then none else some m

/-- JS `\s` for the characters appearing in the examples. -/
def isWsChar (c : Char) : Bool :=
  c = ' ' ∨ c = '\t' ∨ c = '\n' ∨ c = '\r' ∨ c = '\x0b' ∨ c = '\x0c'

/-- JS `\d`. -/
def isDigitChar (c : Char) : Bool :=
  '0' ≤ c ∧ c ≤ '9'

/-- JS `\w`. -/
def isWordChar (c : Char) : Bool :=
  ('a' ≤ c ∧ c ≤ 'z') ∨ ('A' ≤ c ∧ c ≤ 'Z') ∨ ('0' ≤ c ∧ c ≤ '9') ∨ c = '_'

/-- Rule `[/\s+/, v => 'WS']` of the default test spec. -/
def wsRule : Rule :=
  { matcher := takeWhile1 isWsChar, handler := fun _ => .label "WS" }

/-- Rule `[/\d+/, v => 'NUMBER']` of the default test spec. -/
def numberRule : Rule :=
  { matcher := takeWhile1 isDigitChar, handler := fun _ => .label "NUMBER" }

/-- Rule `[/\w+/, v => 'WORD']` of the default test spec. -/
def wordRule : Rule :=
  { matcher := takeWhile1 isWordChar, handler := fun _ => .label "WORD" }

/-- The default spec of the repository's tests and README examples. -/
def defaultRules : List Rule := [wsRule, numberRule, wordRule]

/-- An anchored matcher accepting the whole remaining input (non-empty),
e.g. `/^[\s\S]+/`: used to exercise tokens that span newlines. -/
def matchAll (s : List Char) : Option (List Char) :=
  if s.isEmpty then none else some s

/-- A rule matching the whole remaining input with a plain label. -/
def allRule : Rule :=
  { matcher := matchAll, handler := fun _ => .label "ALL" }

/-- A rule whose handler rewrites the token value via an array result
(`v => [newValue, type]`), like the spec's quote-stripping example. -/
def rewriteRule : Rule :=
  { matcher := matchAll, handler := fun _ => .arr "X".data (some "T") }

/-- A rule whose handler returns null after a successful match. -/
def nullHandlerRule : Rule :=
  { matcher := matchAll, handler := fun _ => .nul }

/-! Specification-side observers used to state the claims.  These do not
model repository code; they only destructure or summarize the results of
the modelled functions. -/

/-- The `(startOffset, endOffset)` spans of a token list, in order. -/
def tokenSpans (toks : List Token) : List (Nat × Nat) :=
  toks.map fun t => (t.startOffset, t.endOffset)

/-- Whether a span list forms a gap-free, overlap-free chain from `a`
to `b`: the first span starts at `a`, each span starts where the previous
one ended, and the last span ends at `b` (for the empty list, `a = b`). -/
def chainedB : Nat → Nat → List (Nat × Nat) → Bool
  | a, b, [] => a == b
  | a, b, (s, e) :: rest => (s == a) && chainedB e b rest

/-- Concatenation of the `value` fields of a token list, in order. -/
def tokenValuesJoin (toks : List Token) : List Char :=
  (toks.map Token.value).flatten

/-- A rule set whose matchers never claim more characters than the
searched string has — what JS `string.match` guarantees, since the match
is a substring of `string`. -/
def MatcherBounded (rules : List Rule) : Prop :=
  ∀ r ∈ rules, ∀ s m, r.matcher s = some m → m.length ≤ s.length

/-- A rule set whose matchers only return prefixes of the searched
string — what an anchored (`^`-prefixed) pattern guarantees under
`string.match`. -/
def MatcherAnchored (rules : List Rule) : Prop :=
  ∀ r ∈ rules, ∀ s m, r.matcher s = some m → ∃ t, m ++ t = s

/-- A rule set none of whose handlers rewrites the token value: whenever
a handler result resolves, the resolved value is the matched text itself
(true of label-returning handlers; array results may rewrite it). -/
def HandlersPreserveValue (rules : List Rule) : Prop :=
  ∀ r ∈ rules, ∀ v ty w, resolveHandler (r.handler v) v = some (ty, w) → w = v

/-- The condition under which one `_genTokens` iteration throws
`UnexpectedToken`: the cursor is strictly before end of input, and either
no rule matches the remaining input or the first matching rule's handler
result resolves to no token type. -/
def unexpectedAt (rules : List Rule) (st : LexState) : Prop :=
  st.cursor < st.input.length ∧
    (findRule rules (st.input.drop st.cursor) = none ∨
      ∃ i r m, findRule rules (st.input.drop st.cursor) = some (i, r, m) ∧
        resolveHandler (r.handler m) m = none)

/-- Number of newline characters in a matched text. -/
def countNl : List Char → Nat
  | [] => 0
  | c :: rest => (if c = '\n' then 1 else 0) + countNl rest

/-- Index of the last newline character in a matched text, if any. -/
def lastNlIdx : List Char → Option Nat
  | [] => none
  | c :: rest =>
      match lastNlIdx rest with
      | some k => some (k + 1)
      | none => if c = '\n' then some 0 else none

/-- Tokens of a run result (emitted before any error). -/
def runResultTokens : RunResult → List Token
  | .ok toks _ => toks
  | .err _ _ _ toks _ => toks
  | .fuelOut => []

/-- Error data `(symbol, line, column)` of a run result, if it erred. -/
def runResultError : RunResult → Option (Option Char × Nat × Nat)
  | .err s l c _ _ => some (s, l, c)
  | _ => none

/-- Whether a run completed normally. -/
def runResultIsOk : RunResult → Bool
  | .ok _ _ => true
  | _ => false

/-- Expected first token of the test input `'Score 250'`. -/
def tokWORD : Token := ⟨"WORD", "Score".data, 0, 5, 1, 1, 0, 5⟩

/-- Expected second token of the test input `'Score 250'`. -/
def tokWS : Token := ⟨"WS", " ".data, 5, 6, 1, 1, 5, 6⟩

/-- Expected third token of the test input `'Score 250'`. -/
def tokNUMBER : Token := ⟨"NUMBER", "250".data, 6, 9, 1, 1, 6, 9⟩

/-- Expected token list of the test input `'Score 250'`. -/
def scoreTokens : List Token := [tokWORD, tokWS, tokNUMBER]

/-- Expected final scan state after tokenizing `'Score 250'`. -/
def scoreFinalState : LexState :=
  ⟨"Score 250".data, 9, 1, 9, 0, 6, 9, 1, 1, 6, 9⟩

/-! Helper lemmas. -/

/-- A one-or-more character-class matcher never claims more characters
than the searched string has. -/
lemma takeWhile1_pre {p : Char → Bool} {s m : List Char}
    (h : takeWhile1 p s = some m) : ∃ t, m ++ t = s := by
  simp only [takeWhile1] at h
  split at h
  · exact absurd h (by simp)
  · injection h with h
    exact ⟨s.dropWhile p, by rw [← h]; exact List.takeWhile_append_dropWhile p s⟩

/-- The rule found by the rule loop belongs to the rule list and its
matcher did match. -/
lemma findRule_mem {rules : List Rule} {rem : List Char} {i : Nat} {r : Rule}
    {m : List Char} (h : findRule rules rem = some (i, r, m)) :
    r ∈ rules ∧ r.matcher rem = some m := by
  induction rules generalizing i with
  | nil => simp [findRule] at h
  | cons r0 rs ih =>
    unfold findRule at h
    cases h0 : r0.matcher rem with
    | some m0 =>
      rw [h0] at h
      simp only [Option.some.injEq, Prod.mk.injEq] at h
      obtain ⟨-, h2, h3⟩ := h
      exact ⟨by rw [← h2]; exact List.mem_cons_self r0 rs, by rw [← h2, ← h3]; exact h0⟩
    | none =>
      rw [h0] at h
      obtain ⟨⟨i', r', m'⟩, hfr, heq⟩ := Option.map_eq_some'.mp h
      simp only [Prod.mk.injEq] at heq
      obtain ⟨-, h2, h3⟩ := heq
      subst h2; subst h3
      have h4 := ih hfr
      exact ⟨List.mem_cons_of_mem r0 h4.1, h4.2⟩

/-- The rule loop returns the earliest-indexed matching rule: if rule `i`
matches and every earlier rule fails, the loop's result is rule `i` with
its matched text. -/
lemma findRule_first {rules : List Rule} {rem : List Char} {i : Nat} {r : Rule}
    {m : List Char} (hr : rules[i]? = some r) (hm : r.matcher rem = some m)
    (hfirst : ∀ j, j < i → ∀ r', rules[j]? = some r' → r'.matcher rem = none) :
    findRule rules rem = some (i, r, m) := by
  induction rules generalizing i with
  | nil => simp at hr
  | cons r0 rs ih =>
    cases i with
    | zero =>
      simp only [List.getElem?_cons_zero, Option.some.injEq] at hr
      subst hr
      unfold findRule
      rw [hm]
    | succ i' =>
      have h0 : r0.matcher rem = none :=
        hfirst 0 (Nat.succ_pos i') r0 (by simp)
      unfold findRule
      rw [h0]
      have hr' : rs[i']? = some r := by simpa using hr
      have hfirst' : ∀ j, j < i' → ∀ r', rs[j]? = some r' → r'.matcher rem = none := by
        intro j hj r' hj'
        exact hfirst (j + 1) (Nat.succ_lt_succ hj) r' (by simpa using hj')
      rw [ih hr' hfirst']
      rfl

/-- The rule loop's outcome only depends on the rules up to and including
the winner: any rule list agreeing on the first `i + 1` rules produces
the same winner. -/
lemma findRule_take {rules rules' : List Rule} {rem : List Char} {i : Nat}
    {r : Rule} {m : List Char} (h : findRule rules rem = some (i, r, m))
    (htake : rules'.take (i + 1) = rules.take (i + 1)) :
    findRule rules' rem = some (i, r, m) := by
  induction rules generalizing rules' i with
  | nil => simp [findRule] at h
  | cons r0 rs ih =>
    cases rules' with
    | nil => simp [List.take] at htake
    | cons r0' rs' =>
      simp only [List.take_succ_cons, List.cons.injEq] at htake
      obtain ⟨hh, ht⟩ := htake
      subst hh
      unfold findRule at h ⊢
      cases h0 : r0'.matcher rem with
      | some m0 =>
        rw [h0] at h
        simp only [Option.some.injEq, Prod.mk.injEq] at h
        obtain ⟨h1, h2, h3⟩ := h
        subst h1; subst h2; subst h3
        rfl
      | none =>
        rw [h0] at h
        obtain ⟨⟨i'', r'', m''⟩, hfr, heq⟩ := Option.map_eq_some'.mp h
        simp only [Prod.mk.injEq] at heq
        obtain ⟨h1, h2, h3⟩ := heq
        subst h2; subst h3; subst h1
        rw [ih hfr ht]
        rfl

/-- A production step only reports end of sequence when the cursor has
reached the end of input (`hasMoreTokens` is false). -/
lemma genStep_eof {rules : List Rule} {st : LexState}
    (h : _genStep rules st = .eof) : st.input.length ≤ st.cursor := by
  unfold _genStep at h
  split at h
  · split at h
    · simp at h
    · split at h <;> simp at h
  · omega

/-- Characterization of a token-producing step: the winner comes from the
rule loop, the state advance is `_match`'s, and the token is `_toToken`'s
for the resolved handler result. -/
lemma genStep_tok {rules : List Rule} {st : LexState} {t : Token} {st' : LexState}
    (h : _genStep rules st = .tok t st') :
    st.cursor < st.input.length ∧
      ∃ i r m ty v, findRule rules (st.input.drop st.cursor) = some (i, r, m) ∧
        resolveHandler (r.handler m) m = some (ty, v) ∧
        st' = matchApply st m ∧ t = _toToken (matchApply st m) ty v := by
  unfold _genStep at h
  split at h
  case isTrue hc =>
    split at h
    case h_1 => simp at h
    case h_2 i r m heq =>
      split at h
      case h_1 => simp at h
      case h_2 ty v hres =>
        simp only [StepResult.tok.injEq] at h
        exact ⟨hc, i, r, m, ty, v, heq, hres, h.2.symm, h.1.symm⟩
  case isFalse => simp at h

/-- Characterization of an error step: the cursor was strictly before end
of input, the reported symbol is the first character of the remaining
input, and either no rule matched (state unchanged, current line/column
reported) or the first matching rule's handler result did not resolve
(state already advanced by the match, advanced line/column reported). -/
lemma genStep_err {rules : List Rule} {st : LexState} {s : Option Char}
    {l c : Nat} {st' : LexState} (h : _genStep rules st = .err s l c st') :
    st.cursor < st.input.length ∧ s = (st.input.drop st.cursor).head? ∧
      ((findRule rules (st.input.drop st.cursor) = none ∧ st' = st ∧
          l = st.currentLine ∧ c = st.currentColumn) ∨
        ∃ i r m, findRule rules (st.input.drop st.cursor) = some (i, r, m) ∧
          resolveHandler (r.handler m) m = none ∧ st' = matchApply st m ∧
          l = (matchApply st m).currentLine ∧ c = (matchApply st m).currentColumn) := by
  unfold _genStep at h
  split at h
  case isTrue hc =>
    split at h
    case h_1 heq =>
      simp only [StepResult.err.injEq] at h
      obtain ⟨h1, h2, h3, h4⟩ := h
      exact ⟨hc, h1.symm, Or.inl ⟨heq, h4.symm, h2.symm, h3.symm⟩⟩
    case h_2 i r m heq =>
      split at h
      case h_1 hres =>
        simp only [StepResult.err.injEq] at h
        obtain ⟨h1, h2, h3, h4⟩ := h
        exact ⟨hc, h1.symm, Or.inr ⟨i, r, m, heq, hres, h4.symm, h2.symm, h3.symm⟩⟩
      case h_2 => simp at h
  case isFalse => simp at h

/-- Field bookkeeping of `_match`'s state advance that does not depend on
the newline scan. -/
lemma matchApply_fields (st : LexState) (m : List Char) :
    (matchApply st m).input = st.input ∧
      (matchApply st m).cursor = st.cursor + m.length ∧
      (matchApply st m).tokenStartOffset = st.cursor ∧
      (matchApply st m).tokenEndOffset = st.cursor + m.length ∧
      (matchApply st m).tokenStartLine = st.currentLine ∧
      (matchApply st m).tokenStartColumn = st.cursor - st.currentLineBeginOffset :=
  ⟨rfl, rfl, rfl, rfl, rfl, rfl⟩

/-- The newline loop's resulting line counter is the start line plus the
number of newlines in the matched text. -/
lemma nlScan_fst (base : Nat) (m : List Char) :
    ∀ i line lbo, (nlScan base m i line lbo).1 = line + countNl m := by
  induction m with
  | nil => intro i line lbo; simp [nlScan, countNl]
  | cons c rest ih =>
    intro i line lbo
    simp only [nlScan, countNl]
    rw [ih]
    by_cases hc : c = '\n'
    · simp [hc]
      omega
    · simp [hc]

/-- The newline loop's resulting line-begin offset is unchanged when the
matched text has no newline, and just past the last newline otherwise. -/
lemma nlScan_snd (base : Nat) (m : List Char) :
    ∀ i line lbo, (nlScan base m i line lbo).2 =
      match lastNlIdx m with
      | none => lbo
      | some k => base + (i + k) + 1 := by
  induction m with
  | nil => intro i line lbo; simp [nlScan, lastNlIdx]
  | cons c rest ih =>
    intro i line lbo
    simp only [nlScan, lastNlIdx]
    rw [ih]
    cases hl : lastNlIdx rest with
    | some k =>
      simp
      omega
    | none =>
      by_cases hc : c = '\n' <;> simp [hc]

/-- Generalized span-chaining invariant of a completed run: starting from
any reachable state, if the run completes normally, the emitted spans
chain from the starting cursor to the input length. -/
lemma runAux_spans {rules : List Rule} (hwf : MatcherBounded rules) :
    ∀ (fuel : Nat) (st : LexState) (toks : List Token) (stF : LexState),
      st.cursor ≤ st.input.length →
      runAux rules fuel st = .ok toks stF →
      chainedB st.cursor st.input.length (tokenSpans toks) = true := by
  intro fuel
  induction fuel with
  | zero =>
    intro st toks stF hle h
    simp [runAux] at h
  | succ fuel ih =>
    intro st toks stF hle h
    unfold runAux at h
    cases hstep : _genStep rules st with
    | eof =>
      rw [hstep] at h
      simp only [RunResult.ok.injEq] at h
      obtain ⟨h1, -⟩ := h
      subst h1
      have hge := genStep_eof hstep
      have heq : st.cursor = st.input.length := Nat.le_antisymm hle hge
      simp [tokenSpans, chainedB, heq]
    | err s l c st' => rw [hstep] at h; simp at h
    | tok t st' =>
      rw [hstep] at h
      simp only [] at h
      cases hrec : runAux rules fuel st' with
      | ok toks' stF' =>
        rw [hrec] at h
        simp only [RunResult.ok.injEq] at h
        obtain ⟨h1, -⟩ := h
        subst h1
        obtain ⟨hc, i, r, m, ty, v, hfr, hres, hst', ht⟩ := genStep_tok hstep
        have hmem := findRule_mem hfr
        have hlen := hwf r hmem.1 _ _ hmem.2
        rw [List.length_drop] at hlen
        have hcur' : st'.cursor = st.cursor + m.length := by rw [hst']; rfl
        have hinp' : st'.input = st.input := by rw [hst']; rfl
        have hso : t.startOffset = st.cursor := by rw [ht]; rfl
        have heo : t.endOffset = st.cursor + m.length := by rw [ht]; rfl
        have hle' : st'.cursor ≤ st'.input.length := by
          rw [hcur', hinp']; omega
        have htail := ih st' toks' stF' hle' hrec
        rw [hcur', hinp'] at htail
        simp only [tokenSpans, List.map_cons, chainedB, hso, heo]
        simp only [tokenSpans] at htail
        simp [htail]
      | err s l c toks' stF' => rw [hrec] at h; simp at h
      | fuelOut => rw [hrec] at h; simp at h

/-- Generalized value-concatenation invariant of a completed run with
anchored matchers and value-preserving handlers: the emitted values
concatenate to the not-yet-consumed part of the input. -/
lemma runAux_concat {rules : List Rule} (hanch : MatcherAnchored rules)
    (hval : HandlersPreserveValue rules) :
    ∀ (fuel : Nat) (st : LexState) (toks : List Token) (stF : LexState),
      runAux rules fuel st = .ok toks stF →
      tokenValuesJoin toks = st.input.drop st.cursor := by
  intro fuel
  induction fuel with
  | zero =>
    intro st toks stF h
    simp [runAux] at h
  | succ fuel ih =>
    intro st toks stF h
    unfold runAux at h
    cases hstep : _genStep rules st with
    | eof =>
      rw [hstep] at h
      simp only [RunResult.ok.injEq] at h
      obtain ⟨h1, -⟩ := h
      subst h1
      have hge := genStep_eof hstep
      rw [List.drop_eq_nil_of_le hge]
      simp [tokenValuesJoin]
    | err s l c st' => rw [hstep] at h; simp at h
    | tok t st' =>
      rw [hstep] at h
      simp only [] at h
      cases hrec : runAux rules fuel st' with
      | ok toks' stF' =>
        rw [hrec] at h
        simp only [RunResult.ok.injEq] at h
        obtain ⟨h1, -⟩ := h
        subst h1
        obtain ⟨hc, i, r, m, ty, v, hfr, hres, hst', ht⟩ := genStep_tok hstep
        have hmem := findRule_mem hfr
        obtain ⟨tl, htl⟩ := hanch r hmem.1 _ _ hmem.2
        have hv : v = m := hval r hmem.1 m ty v hres
        have hval' : t.value = m := by rw [ht, hv]; rfl
        have hcur' : st'.cursor = st.cursor + m.length := by rw [hst']; rfl
        have hinp' : st'.input = st.input := by rw [hst']; rfl
        have htail := ih st' toks' stF' hrec
        rw [hcur', hinp'] at htail
        have hdrop : st.input.drop (st.cursor + m.length) = tl := by
          rw [← List.drop_drop, ← htl, List.drop_left]
        simp only [tokenValuesJoin, List.map_cons, List.flatten_cons, hval']
        simp only [tokenValuesJoin] at htail
        rw [htail, hdrop, htl]
      | err s l c toks' stF' => rw [hrec] at h; simp at h
      | fuelOut => rw [hrec] at h; simp at h

/-- The default test spec's matchers claim at most the searched string. -/
lemma defaultRules_bounded : MatcherBounded defaultRules := by
  intro r hr s m hm
  obtain ⟨t, ht⟩ : ∃ t, m ++ t = s := by
    fin_cases hr <;> exact takeWhile1_pre hm
  rw [← ht, List.length_append]
  omega

/-- The default test spec's matchers only return prefixes. -/
lemma defaultRules_anchored : MatcherAnchored defaultRules := by
  intro r hr s m hm
  fin_cases hr <;> exact takeWhile1_pre hm

/-- The default test spec's handlers never rewrite the token value. -/
lemma defaultRules_preserve : HandlersPreserveValue defaultRules := by
  intro r hr v ty w h
  fin_cases hr <;>
    (simp only [wsRule, numberRule, wordRule, resolveHandler, Option.some.injEq,
       Prod.mk.injEq] at h
     exact h.2.symm)

/-! Claim theorems. -/

/-- C1: at every scan position where at least one rule's anchored pattern
matches the remaining input, the winner of the rule loop is the
earliest-indexed matching rule; later rules are never consulted (any rule
list agreeing up to the winner produces the same step result, however
much longer a later rule might match), and the emitted token or error is
determined by that rule's match and handler (first-match-by-order, not
longest-match). -/
theorem C1_first_match_by_order (rules rules' : List Rule) (st : LexState)
    (i : Nat) (r : Rule) (m : List Char)
    (hr : rules[i]? = some r)
    (hm : r.matcher (st.input.drop st.cursor) = some m)
    (hfirst : ∀ j, j < i → ∀ r', rules[j]? = some r' →
      r'.matcher (st.input.drop st.cursor) = none)
    (hpre : rules'.take (i + 1) = rules.take (i + 1)) :
    findRule rules (st.input.drop st.cursor) = some (i, r, m) ∧
      _genStep rules' st = _genStep rules st ∧
      (∀ ty v, st.cursor < st.input.length →
        resolveHandler (r.handler m) m = some (ty, v) →
        _genStep rules st =
          .tok (_toToken (matchApply st m) ty v) (matchApply st m)) ∧
      (st.cursor < st.input.length →
        resolveHandler (r.handler m) m = none →
        _genStep rules st =
          .err (st.input.drop st.cursor).head? (matchApply st m).currentLine
            (matchApply st m).currentColumn (matchApply st m)) := by
  have h1 : findRule rules (st.input.drop st.cursor) = some (i, r, m) :=
    findRule_first hr hm hfirst
  have h2 : findRule rules' (st.input.drop st.cursor) = some (i, r, m) :=
    findRule_take h1 hpre
  refine ⟨h1, ?_, ?_, ?_⟩
  · by_cases hc : st.cursor < st.input.length
    · unfold _genStep
      rw [if_pos hc, if_pos hc, h1, h2]
    · unfold _genStep
      rw [if_neg hc, if_neg hc]
  · intro ty v hc hres
    unfold _genStep
    rw [if_pos hc, h1]
    simp only [hres]
  · intro hc hres
    unfold _genStep
    rw [if_pos hc, h1]
    simp only [hres]

/-- C1 witness: on `'Score 250'` with the default WS/NUMBER/WORD spec,
the WORD rule (index 2) wins with match `'Score'`; appending a rule that
would match the entire input does not change the step. -/
theorem C1_first_match_by_order_witness :
    findRule defaultRules ((initState "Score 250".data).input.drop
      (initState "Score 250".data).cursor) = some (2, wordRule, "Score".data) ∧
      _genStep (defaultRules ++ [allRule]) (initState "Score 250".data) =
        _genStep defaultRules (initState "Score 250".data) ∧
      _genStep defaultRules (initState "Score 250".data) =
        .tok (_toToken (matchApply (initState "Score 250".data) "Score".data)
          "WORD" "Score".data)
          (matchApply (initState "Score 250".data) "Score".data) := by
  have hfirst : ∀ j, j < 2 → ∀ r', defaultRules[j]? = some r' →
      r'.matcher ((initState "Score 250".data).input.drop
        (initState "Score 250".data).cursor) = none := by
    intro j hj r' hr'
    interval_cases j
    · have h0 : defaultRules[0]? = some wsRule := rfl
      rw [h0] at hr'
      injection hr' with hh
      subst hh
      rfl
    · have h0 : defaultRules[1]? = some numberRule := rfl
      rw [h0] at hr'
      injection hr' with hh
      subst hh
      rfl
  have h := C1_first_match_by_order defaultRules (defaultRules ++ [allRule])
    (initState "Score 250".data) 2 wordRule "Score".data rfl rfl hfirst rfl
  exact ⟨h.1, h.2.1, h.2.2.1 "WORD" "Score".data (by decide) rfl⟩

/-- C2: for every input that tokenizes to completion without error (and
any rule set whose matches never exceed the searched text, as JS
`string.match` guarantees), the emitted `(startOffset, endOffset)` spans,
in emission order, partition the input: the first span starts at 0, each
span starts where the previous one ended, and the last span ends at the
input length (no gaps, no overlaps). -/
theorem C2_spans_partition (rules : List Rule) (fuel : Nat)
    (input : List Char) (toks : List Token) (stF : LexState)
    (hwf : MatcherBounded rules)
    (hrun : runTokenizer rules fuel input = .ok toks stF) :
    chainedB 0 input.length (tokenSpans toks) = true := by
  have h := runAux_spans hwf fuel (initState input) toks stF
    (by simp [initState]) hrun
  simpa [initState] using h

/-- C2 witness: tokenizing `'Score 250'` with the default spec completes
and its spans `(0,5) (5,6) (6,9)` partition the 9-character input. -/
theorem C2_spans_partition_witness :
    chainedB 0 ("Score 250".data.length) (tokenSpans scoreTokens) = true :=
  C2_spans_partition defaultRules 10 "Score 250".data scoreTokens
    scoreFinalState defaultRules_bounded (by decide)

/-- C3 counterexample: the claim fails as stated, because a handler may
rewrite the token value via an array result.  With the single rule
`[/^[\s\S]+/, v => ['X', 'T']]` — under which every character is covered
(the whole input is matched and tokenization completes) — input `'ab'`
produces one token of value `'X'`, and concatenating values yields
`'X' ≠ 'ab'`. -/
theorem C3_values_concat_cex :
    runResultIsOk (runTokenizer [rewriteRule] 10 "ab".data) = true ∧
      tokenValuesJoin (runResultTokens (runTokenizer [rewriteRule] 10 "ab".data)) =
        "X".data ∧
      "X".data ≠ "ab".data := by
  refine ⟨by decide, by decide, by decide⟩

/-- C3 (amended): for every input and spec under which every character is
covered by some rule (tokenization completes without error), provided the
matchers are anchored (matches are prefixes, as `^`-anchored patterns
guarantee) and no handler rewrites the token value via an array result,
concatenating the emitted tokens' value fields in emission order
reproduces the original input exactly. -/
theorem C3_values_concat (rules : List Rule) (fuel : Nat) (input : List Char)
    (toks : List Token) (stF : LexState)
    (hanch : MatcherAnchored rules) (hval : HandlersPreserveValue rules)
    (hrun : runTokenizer rules fuel input = .ok toks stF) :
    tokenValuesJoin toks = input := by
  have h := runAux_concat hanch hval fuel (initState input) toks stF hrun
  simpa [initState] using h

/-- C3 witness: tokenizing `'Score 250'` with the default label-only spec
completes and the token values concatenate back to `'Score 250'`. -/
theorem C3_values_concat_witness :
    tokenValuesJoin scoreTokens = "Score 250".data :=
  C3_values_concat defaultRules 10 "Score 250".data scoreTokens
    scoreFinalState defaultRules_anchored defaultRules_preserve (by decide)

/-- C4: token production throws `UnexpectedToken` if and only if the
cursor is strictly before end of input and either no rule matches the
remaining input or the first matching rule's handler result resolves to
no token type (a null handler result is not "try next rule": the error is
raised for the committed rule).  The diagnostic carries the first
character of the remaining input and the scan state's current line and
column as they stand at the throw; the scan state is left at the failure
position — unchanged when no rule matched, already advanced past the
match when the handler result was null — and is not auto-recovered. -/
theorem C4_unexpected_token_iff (rules : List Rule) (st : LexState) :
    ((∃ s l c st', _genStep rules st = .err s l c st') ↔
      unexpectedAt rules st) ∧
      (st.cursor < st.input.length →
        findRule rules (st.input.drop st.cursor) = none →
        _genStep rules st = .err (st.input.drop st.cursor).head?
          st.currentLine st.currentColumn st) ∧
      (∀ i r m, st.cursor < st.input.length →
        findRule rules (st.input.drop st.cursor) = some (i, r, m) →
        resolveHandler (r.handler m) m = none →
        _genStep rules st = .err (st.input.drop st.cursor).head?
          (matchApply st m).currentLine (matchApply st m).currentColumn
          (matchApply st m)) := by
  have hnone : ∀ hc : st.cursor < st.input.length,
      findRule rules (st.input.drop st.cursor) = none →
      _genStep rules st = .err (st.input.drop st.cursor).head?
        st.currentLine st.currentColumn st := by
    intro hc hfr
    unfold _genStep
    rw [if_pos hc, hfr]
  have hsome : ∀ (i : Nat) (r : Rule) (m : List Char),
      st.cursor < st.input.length →
      findRule rules (st.input.drop st.cursor) = some (i, r, m) →
      resolveHandler (r.handler m) m = none →
      _genStep rules st = .err (st.input.drop st.cursor).head?
        (matchApply st m).currentLine (matchApply st m).currentColumn
        (matchApply st m) := by
    intro i r m hc hfr hres
    unfold _genStep
    rw [if_pos hc, hfr]
    simp only [hres]
  refine ⟨⟨?_, ?_⟩, fun hc hfr => hnone hc hfr, hsome⟩
  · rintro ⟨s, l, c, st', herr⟩
    obtain ⟨hc, -, hcase⟩ := genStep_err herr
    refine ⟨hc, ?_⟩
    rcases hcase with ⟨hfr, -⟩ | ⟨i, r, m, hfr, hres, -⟩
    · exact Or.inl hfr
    · exact Or.inr ⟨i, r, m, hfr, hres⟩
  · rintro ⟨hc, hcase⟩
    rcases hcase with hfr | ⟨i, r, m, hfr, hres⟩
    · exact ⟨_, _, _, _, hnone hc hfr⟩
    · exact ⟨_, _, _, _, hsome i r m hc hfr hres⟩

/-- C4 witness: with the default spec on input `'!'` no rule matches, the
error condition holds, and the step throws naming `'!'` at line 1,
column 0, leaving the scan state unchanged. -/
theorem C4_unexpected_token_iff_witness :
    unexpectedAt defaultRules (initState "!".data) ∧
      _genStep defaultRules (initState "!".data) =
        .err (some '!') 1 0 (initState "!".data) := by
  have h := C4_unexpected_token_iff defaultRules (initState "!".data)
  have herr := h.2.1 (by decide) rfl
  exact ⟨h.1.mp ⟨some '!', 1, 0, initState "!".data, herr⟩, herr⟩

/-- C5 (code bug): `getAllTokens()` never drains the token sequence.  The
constructor initializes `_tokens` to `[]` (non-null) and `init` only
clears it in place, so the `_tokens == null` drain guard in
`getAllTokens` can never fire: the first call after `init('Score 250')`
returns the empty stored array, while the token sequence of the same
scan holds the three expected tokens — contradicting both the claim and
the repository's own `'Tokens array'` test. -/
theorem C5_getAllTokens_never_drains :
    getAllTokensT defaultRules 10 (mkTokenizer "Score 250".data) =
      ([], mkTokenizer "Score 250".data) ∧
      runResultIsOk (runTokenizer defaultRules 10 "Score 250".data) = true ∧
      runResultTokens (runTokenizer defaultRules 10 "Score 250".data) =
        scoreTokens ∧
      scoreTokens ≠ [] := by
  exact ⟨by decide, by decide, by decide, by decide⟩

/-- C6 (code bug): a token always carries the six location fields.  This
version of `_toToken` attaches `startOffset`/`endOffset`/`startLine`/
`endLine`/`startColumn`/`endColumn` unconditionally, and `init` accepts no
options argument, so no `captureLocations` option exists to control them:
the first token of `'Score 250'` — pulled without ever enabling any
option — already carries all six fields. -/
theorem C6_locations_always_attached :
    (genNext defaultRules (mkTokenizer "Score 250".data)).1 = .tok tokWORD ∧
      (∀ st ty v,
        (_toToken st ty v).startOffset = st.tokenStartOffset ∧
        (_toToken st ty v).endOffset = st.tokenEndOffset ∧
        (_toToken st ty v).startLine = st.tokenStartLine ∧
        (_toToken st ty v).endLine = st.tokenEndLine ∧
        (_toToken st ty v).startColumn = st.tokenStartColumn ∧
        (_toToken st ty v).endColumn = st.tokenEndColumn) :=
  ⟨by decide, fun _ _ _ => ⟨rfl, rfl, rfl, rfl, rfl, rfl⟩⟩

/-- C7 counterexample: normalization does not preserve flags.  For an
unanchored pattern, `_processSpec` replaces it by `new RegExp('^' +
source)`, whose flags are the default empty string: the pattern `/a/i`
becomes `/^a/` and its `i` flag is lost, contradicting the claim that all
other pattern semantics, including flags, are preserved. -/
theorem C7_flags_dropped_cex :
    _processSpec [({ source := "a".data, flags := "i".data }, 0)] =
      [({ source := "^a".data, flags := [] }, 0)] ∧
      (processPattern { source := "a".data, flags := "i".data }).flags ≠
        "i".data := by
  exact ⟨by decide, by decide⟩

/-- C7 (amended): normalization rewrites every rule pattern whose source
does not start with `'^'` into the pattern `'^' + source` with default
(empty) flags — the source text (and hence its groups) is preserved, but
the original flags are dropped; an already-anchored pattern is left
entirely unchanged, so normalizing an already-normalized spec changes
nothing (idempotence on repeated normalization). -/
theorem C7_normalization_amended :
    (∀ r : JSRegExp, r.source.head? = some '^' → processPattern r = r) ∧
      (∀ r : JSRegExp, ¬r.source.head? = some '^' →
        processPattern r = { source := '^' :: r.source, flags := [] }) ∧
      (∀ r : JSRegExp, processPattern (processPattern r) = processPattern r) ∧
      (∀ spec : List (JSRegExp × Nat),
        _processSpec (_processSpec spec) = _processSpec spec) := by
  have hidem : ∀ r : JSRegExp, processPattern (processPattern r) =
      processPattern r := by
    intro r
    unfold processPattern
    by_cases h : r.source.head? = some '^'
    · rw [if_pos h, if_pos h]
    · rw [if_neg h]
      simp
  refine ⟨?_, ?_, hidem, ?_⟩
  · intro r h
    unfold processPattern
    rw [if_pos h]
  · intro r h
    unfold processPattern
    rw [if_neg h]
  · intro spec
    induction spec with
    | nil => rfl
    | cons e rest ih =>
      simp only [_processSpec, List.map_cons, List.map_map] at ih ⊢
      rw [hidem e.1]
      exact congrArg _ (by simpa [_processSpec, List.map_map] using ih)

/-- C7 amended witness: the anchored pattern `/^a/i` is left unchanged,
the unanchored `/a/i` becomes `/^a/` with empty flags, and re-normalizing
a one-rule spec changes nothing. -/
theorem C7_normalization_amended_witness :
    processPattern { source := "^a".data, flags := "i".data } =
      { source := "^a".data, flags := "i".data } ∧
      processPattern { source := "a".data, flags := "i".data } =
        { source := '^' :: "a".data, flags := [] } ∧
      _processSpec (_processSpec [({ source := "a".data, flags := "i".data }, 0)]) =
        _processSpec [({ source := "a".data, flags := "i".data }, 0)] := by
  have h := C7_normalization_amended
  exact ⟨h.1 _ (by decide), h.2.1 _ (by decide), h.2.2.2 _⟩

/-- C8: for every match, the token start offset is the pre-advance
cursor; the end offset is start plus matched length and becomes the new
cursor; each newline in the matched text increments the line count, the
line-begin offset ends up just past the last newline (unchanged if
none); the end line is the line count after all newlines of the match;
and the end column is the end offset minus the final line-begin offset
and becomes the new current column.  Concretely, a token spanning the
newline of `'a\nbb'` reports `startLine = 1`, `endLine = 2` and
`endColumn = 2`, measured from the character after the newline. -/
theorem C8_location_tracking :
    (∀ (st : LexState) (m : List Char),
      (matchApply st m).tokenStartOffset = st.cursor ∧
      (matchApply st m).tokenEndOffset = st.cursor + m.length ∧
      (matchApply st m).cursor = st.cursor + m.length ∧
      (matchApply st m).tokenStartLine = st.currentLine ∧
      (matchApply st m).tokenEndLine = st.currentLine + countNl m ∧
      (matchApply st m).currentLine = st.currentLine + countNl m ∧
      (matchApply st m).currentLineBeginOffset =
        (match lastNlIdx m with
          | none => st.currentLineBeginOffset
          | some k => st.cursor + k + 1) ∧
      (matchApply st m).tokenEndColumn =
        (st.cursor + m.length) - (matchApply st m).currentLineBeginOffset ∧
      (matchApply st m).currentColumn = (matchApply st m).tokenEndColumn) ∧
      runResultIsOk (runTokenizer [allRule] 2 "a\nbb".data) = true ∧
      runResultTokens (runTokenizer [allRule] 2 "a\nbb".data) =
        [⟨"ALL", "a\nbb".data, 0, 4, 1, 2, 0, 2⟩] := by
  refine ⟨fun st m => ?_, by decide, by decide⟩
  have hline : (nlScan st.cursor m 0 st.currentLine st.currentLineBeginOffset).1 =
      st.currentLine + countNl m := nlScan_fst st.cursor m 0 _ _
  have hlbo : (nlScan st.cursor m 0 st.currentLine st.currentLineBeginOffset).2 =
      match lastNlIdx m with
      | none => st.currentLineBeginOffset
      | some k => st.cursor + k + 1 := by
    rw [nlScan_snd]
    cases lastNlIdx m with
    | none => rfl
    | some k => simp
  exact ⟨rfl, rfl, rfl, rfl, hline, hline, hlbo, rfl, rfl⟩

/-- C9: the `UnexpectedToken` diagnostic contains the full source line of
the failure position (found by splitting the whole input on newlines and
indexing by the line number), then a caret preceded by `column` spaces on
the next line, then the trailing message
`Unexpected token: "<char>" at <line>:<column>`; when that source line
cannot be located the decoration is omitted but the message line is still
produced; and for the default spec on `'Score: 250'` the failure cites
`':'` at line 1, column 5. -/
theorem C9_error_message_format :
    (∀ (input : List Char) (symbol : Option Char) (line column : Nat)
      (ls : List Char), (splitNl input).get? (line - 1) = some ls → ls ≠ [] →
      unexpectedTokenMessage input symbol line column =
        ('\n' :: '\n' :: (ls ++ '\n' :: (List.replicate column ' ' ++
          ['^', '\n']))) ++ unexpectedCore symbol line column) ∧
      (∀ (input : List Char) (symbol : Option Char) (line column : Nat),
        (splitNl input).get? (line - 1) = none →
        unexpectedTokenMessage input symbol line column =
          unexpectedCore symbol line column) ∧
      runResultError (runTokenizer defaultRules 10 "Score: 250".data) =
        some (some ':', 1, 5) ∧
      unexpectedTokenMessage "Score: 250".data (some ':') 1 5 =
        "\n\nScore: 250\n     ^\nUnexpected token: \":\" at 1:5\n".data := by
  refine ⟨?_, ?_, by decide, by decide⟩
  · intro input symbol line column ls hget hne
    simp only [unexpectedTokenMessage, hget]
    rw [if_neg (by simpa using hne)]
  · intro input symbol line column hget
    simp only [unexpectedTokenMessage, hget]
    rfl

/-- C9 witness: the concrete diagnostic for `':'` at 1:5 in
`'Score: 250'` carries the source line and a 5-space caret pad, and for a
line index past the end of a one-line input the decoration is omitted. -/
theorem C9_error_message_format_witness :
    unexpectedTokenMessage "Score: 250".data (some ':') 1 5 =
      ('\n' :: '\n' :: ("Score: 250".data ++ '\n' :: (List.replicate 5 ' ' ++
        ['^', '\n']))) ++ unexpectedCore (some ':') 1 5 ∧
      unexpectedTokenMessage "a".data (some '!') 2 0 =
        unexpectedCore (some '!') 2 0 := by
  have h := C9_error_message_format
  exact ⟨h.1 "Score: 250".data (some ':') 1 5 "Score: 250".data rfl (by decide),
    h.2.1 "a".data (some '!') 2 0 rfl⟩

/-- C10 counterexample: the claim's side condition that `hasMoreTokens()`
still returns true after an `UnexpectedToken` fails when the error came
from a null handler result: with the rule `[/^[\s\S]+/, v => null]` on
`'abc'`, the match consumes the whole input before the handler result is
inspected, so the throw leaves the cursor at the input length and
`hasMoreTokens()` returns false. -/
theorem C10_sequence_finished_cex :
    (genNext [nullHandlerRule] (mkTokenizer "abc".data)).1 =
      .thrown (some 'a') 1 3 ∧
      (genNext [nullHandlerRule] (mkTokenizer "abc".data)).2.genDone = true ∧
      hasMoreTokensT (genNext [nullHandlerRule] (mkTokenizer "abc".data)).2 =
        false := by
  exact ⟨by decide, by decide, by decide⟩

/-- C10 (amended): after token production raises `UnexpectedToken`, the
current lazy token sequence is permanently finished — every subsequent
`getNextToken` call returns the end marker without re-attempting any
match (the result is independent of the rules and leaves the object
unchanged), until `init`/`reset` creates a fresh sequence.  When the
error came from no rule matching, the cursor is unmoved and
`hasMoreTokens()` still returns true; when it came from a null handler
result the cursor has already advanced past the match and may equal the
input length, making `hasMoreTokens()` false. -/
theorem C10_sequence_finished_after_error :
    (∀ (rules : List Rule) (g : TokenizerObj), g.genDone = true →
      genNext rules g = (.eof, g)) ∧
      (∀ (rules : List Rule) (g : TokenizerObj) (s : Option Char) (l c : Nat)
        (g' : TokenizerObj), genNext rules g = (.thrown s l c, g') →
        g'.genDone = true) ∧
      (∀ (rules : List Rule) (g : TokenizerObj) (s : Option Char) (l c : Nat)
        (g' : TokenizerObj), genNext rules g = (.thrown s l c, g') →
        findRule rules (g.st.input.drop g.st.cursor) = none →
        hasMoreTokensT g' = true) ∧
      (∀ (input : List Char) (g : TokenizerObj),
        (tokInit input g).genDone = false) := by
  refine ⟨?_, ?_, ?_, fun _ _ => rfl⟩
  · intro rules g h
    unfold genNext
    rw [if_pos h]
  · intro rules g s l c g' h
    unfold genNext at h
    by_cases hd : g.genDone = true
    · rw [if_pos hd] at h
      exact absurd h (by simp)
    · rw [if_neg hd] at h
      cases hstep : _genStep rules g.st <;> rw [hstep] at h <;>
        simp only [Prod.mk.injEq] at h
      · exact absurd h.1 (by simp)
      · exact absurd h.1 (by simp)
      · rw [← h.2]
  · intro rules g s l c g' h hfr
    unfold genNext at h
    by_cases hd : g.genDone = true
    · rw [if_pos hd] at h
      exact absurd h (by simp)
    · rw [if_neg hd] at h
      cases hstep : _genStep rules g.st <;> rw [hstep] at h <;>
        simp only [Prod.mk.injEq] at h
      · exact absurd h.1 (by simp)
      · exact absurd h.1 (by simp)
      · obtain ⟨hc, -, hcase⟩ := genStep_err hstep
        rcases hcase with ⟨-, hst, -, -⟩ | ⟨i, r, m, hfr', -⟩
        · rw [← h.2]
          simp only [hasMoreTokensT, hst]
          exact decide_eq_true hc
        · rw [hfr] at hfr'
          exact absurd hfr' (by simp)

/-- C10 amended witness: a completed generator answers the end marker
unchanged; on `'!'` with the default spec the throw completes the
generator while `hasMoreTokens()` stays true (no-match error, cursor
unmoved). -/
theorem C10_sequence_finished_witness :
    genNext defaultRules ⟨initState "x".data, some [], true⟩ =
      (.eof, ⟨initState "x".data, some [], true⟩) ∧
      (genNext defaultRules (mkTokenizer "!".data)).2.genDone = true ∧
      hasMoreTokensT (genNext defaultRules (mkTokenizer "!".data)).2 = true := by
  have h := C10_sequence_finished_after_error
  refine ⟨h.1 defaultRules ⟨initState "x".data, some [], true⟩ rfl, ?_, ?_⟩
  · exact h.2.1 defaultRules (mkTokenizer "!".data) (some '!') 1 0
      ⟨initState "!".data, some [], true⟩ (by decide)
  · exact h.2.2.1 defaultRules (mkTokenizer "!".data) (some '!') 1 0
      ⟨initState "!".data, some [], true⟩ (by decide) rfl
